import Mathlib

/-!
# Verification of the speak streaming transcription subsystem

Shallow embedding of the Linux sources under `src/linux/src/` of the
`speak` repository: the ring buffer (`ring_buffer.h`), the voice activity
detector (`vad.h` / `vad.cpp`), the linear-interpolation resampler
(`audio_engine.cpp`), and the transcription orchestrator
(`transcription_pipeline.cpp`, `whisper_context.cpp`).

Modelling conventions:
* C++ `float`/`double` sample values and thresholds are embedded as `ℚ`;
  none of the verified properties concerns floating-point rounding.
* `std::vector<float>` becomes `List ℚ`; `std::string` becomes `List Char`
  (string positions and lengths in the source are byte counts, which agree
  with character counts on the ASCII data the properties talk about).
* Mutating member functions become functions from the state record to an
  updated state record, paired with whatever the function appends to its
  output vector.
* The comparison `rms >= t` on a frame's root-mean-square energy is
  embedded as `rms_ge`, which compares the mean square against `t^2`
  when `0 < t` (both sides of the source comparison are nonnegative and
  squaring is monotone there, so this is the same predicate without the
  irrational square root).
-/

namespace Speak

/-! ## Ring buffer (`src/linux/src/ring_buffer.h`)

`append` extends the backing store; `drain` swaps the whole contents out,
leaving an empty buffer, and returns the swapped-out contents.  The mutex
serialises the two operations; each operation is modelled as one atomic
step on the state. -/

structure RingBuffer where
  samples : List ℚ := []

def RingBuffer.append (b : RingBuffer) (data : List ℚ) : RingBuffer :=
  ⟨b.samples ++ data⟩

/-- `drain()` returns the swapped-out contents together with the
emptied buffer (capacity retention has no observable effect on contents). -/
def RingBuffer.drain (b : RingBuffer) : List ℚ × RingBuffer :=
  (b.samples, ⟨[]⟩)

def RingBuffer.count (b : RingBuffer) : ℕ :=
  b.samples.length

/-! ## Resampler (`AudioEngine::resample`, `src/linux/src/audio_engine.cpp`)

`static_cast<size_t>` of the nonnegative quantities involved is floor,
embedded via `Int.toNat ∘ Int.floor`.  The source's early `return {}` for
`out_count == 0` coincides with mapping over `List.range 0`. -/

def resample (input : List ℚ) (from_rate to_rate : ℚ) : List ℚ :=
  if from_rate = to_rate ∨ input = [] then input
  else
    let ratio := from_rate / to_rate
    let out_count := (⌊(input.length : ℚ) / ratio⌋).toNat
    (List.range out_count).map fun (i : ℕ) =>
      let src_idx : ℚ := (i : ℚ) * ratio
      let idx0 : ℕ := (⌊src_idx⌋).toNat
      let frac : ℚ := src_idx - (idx0 : ℚ)
      let idx1 : ℕ := min (idx0 + 1) (input.length - 1)
      input.getD idx0 0 * (1 - frac) + input.getD idx1 0 * frac

/-! ## Voice activity detector (`src/linux/src/vad.h`, `src/linux/src/vad.cpp`)

The mutable members of `class VoiceActivityDetector` become fields of a
record; `process_frame` returns the updated record together with the
samples it appended to its `output` argument.  Default field values mirror
the in-class initialisers of `vad.h` (the float literals `0.007f`/`0.003f`
by their decimal values). -/

inductive VadState
  | silence
  | speech_onset
  | speaking
  | speech_offset
deriving DecidableEq, Repr

structure VoiceActivityDetector where
  state : VadState := .silence
  is_speaking : Bool := false
  is_enabled : Bool := true
  speech_threshold : ℚ := 7 / 1000
  silence_threshold : ℚ := 3 / 1000
  min_speech_duration_ms : ℕ := 60
  min_silence_duration_ms : ℕ := 600
  pre_speech_padding_ms : ℕ := 200
  post_speech_padding_ms : ℕ := 300
  active_sample_rate : ℕ := 16000
  pre_speech_buf : List ℚ := []
  onset_buf : List ℚ := []
  post_speech_buf : List ℚ := []
  speech_sample_count : ℕ := 0
  silence_sample_count : ℕ := 0

namespace VoiceActivityDetector

def pre_speech_max_samples (v : VoiceActivityDetector) : ℕ :=
  v.pre_speech_padding_ms * v.active_sample_rate / 1000

def post_speech_max_samples (v : VoiceActivityDetector) : ℕ :=
  v.post_speech_padding_ms * v.active_sample_rate / 1000

def min_speech_samples (v : VoiceActivityDetector) : ℕ :=
  v.min_speech_duration_ms * v.active_sample_rate / 1000

def min_silence_samples (v : VoiceActivityDetector) : ℕ :=
  v.min_silence_duration_ms * v.active_sample_rate / 1000

end VoiceActivityDetector

/-- The mean square of a frame, `(Σ xᵢ²)/len` (0 for an empty frame):
the square of `compute_rms` of `vad.h`. -/
def compute_rms_sq (data : List ℚ) : ℚ :=
  if data.length = 0 then 0
  else (data.map fun x => x * x).sum / (data.length : ℚ)

/-- The source comparison `compute_rms(frame) >= t`.  `compute_rms` is the
nonnegative square root of `compute_rms_sq`, so for `0 < t` the comparison
is equivalent to `compute_rms_sq ≥ t²`, and for `t ≤ 0` it always holds. -/
def rms_ge (data : List ℚ) (t : ℚ) : Bool :=
  if t ≤ 0 then true else decide (t ^ 2 ≤ compute_rms_sq data)

namespace VoiceActivityDetector

/-- `append_to_pre_speech`: extend the pre-speech rolling window, then drop
the oldest samples beyond `pre_speech_max_samples`. -/
def append_to_pre_speech (v : VoiceActivityDetector) (data : List ℚ) :
    VoiceActivityDetector :=
  let buf := v.pre_speech_buf ++ data
  let maxLen := v.pre_speech_max_samples
  if buf.length > maxLen then
    { v with pre_speech_buf := buf.drop (buf.length - maxLen) }
  else
    { v with pre_speech_buf := buf }

/-- `process_frame`: one step of the 4-state segmenter.  Returns the updated
detector and the samples the source pushes onto `output` for this frame. -/
def process_frame (v : VoiceActivityDetector) (frame : List ℚ) :
    VoiceActivityDetector × List ℚ :=
  match v.state with
  | .silence =>
    if rms_ge frame v.speech_threshold then
      ({ v with state := .speech_onset,
                speech_sample_count := frame.length,
                onset_buf := frame }, [])
    else
      (v.append_to_pre_speech frame, [])
  | .speech_onset =>
    if rms_ge frame v.speech_threshold then
      let cnt := v.speech_sample_count + frame.length
      let ob := v.onset_buf ++ frame
      if cnt ≥ v.min_speech_samples then
        ({ v with state := .speaking,
                  is_speaking := true,
                  speech_sample_count := cnt,
                  pre_speech_buf := [],
                  onset_buf := [] },
         v.pre_speech_buf ++ ob)
      else
        ({ v with speech_sample_count := cnt, onset_buf := ob }, [])
    else
      let v1 := v.append_to_pre_speech v.onset_buf
      let v2 := v1.append_to_pre_speech frame
      ({ v2 with onset_buf := [], speech_sample_count := 0, state := .silence }, [])
  | .speaking =>
    if rms_ge frame v.silence_threshold then
      (v, frame)
    else
      ({ v with state := .speech_offset,
                silence_sample_count := frame.length,
                post_speech_buf := frame }, [])
  | .speech_offset =>
    if rms_ge frame v.silence_threshold then
      ({ v with post_speech_buf := [],
                silence_sample_count := 0,
                state := .speaking },
       v.post_speech_buf ++ frame)
    else
      let cnt := v.silence_sample_count + frame.length
      let pb := v.post_speech_buf ++ frame
      if cnt ≥ v.min_silence_samples then
        ({ v with post_speech_buf := [],
                  silence_sample_count := 0,
                  state := .silence,
                  is_speaking := false,
                  pre_speech_buf := [] },
         pb.take v.post_speech_max_samples)
      else
        ({ v with silence_sample_count := cnt, post_speech_buf := pb }, [])

/-- `reset()`: clear all accumulators and counters and return to silence. -/
def reset (v : VoiceActivityDetector) : VoiceActivityDetector :=
  { v with state := .silence,
           is_speaking := false,
           pre_speech_buf := [],
           onset_buf := [],
           post_speech_buf := [],
           speech_sample_count := 0,
           silence_sample_count := 0 }

end VoiceActivityDetector

/-- `⌈len / n⌉`: the number of iterations of a `while offset < count`
loop advancing `offset` by `n` (the source loops never run with `n = 0`). -/
def numChunks (n len : ℕ) : ℕ := (len + n - 1) / n

/-- The consecutive fixed-size pieces a `while` loop with step `n` cuts a
buffer into, indexed by iteration: piece `i` is `l[i*n, min((i+1)*n, len))`. -/
def chunkPieces (n : ℕ) (l : List ℚ) : List (List ℚ) :=
  (List.range (numChunks n l.length)).map fun i => (l.drop (i * n)).take n

/-- `VoiceActivityDetector::process`: identity pass-through when disabled,
otherwise fold `process_frame` over consecutive 30 ms frames. -/
def VoiceActivityDetector.process (v : VoiceActivityDetector)
    (sample_rate : ℕ) (samples : List ℚ) :
    VoiceActivityDetector × List ℚ :=
  if v.is_enabled = false then (v, samples)
  else
    let v0 := { v with active_sample_rate := sample_rate }
    (chunkPieces (sample_rate * 30 / 1000) samples).foldl
      (fun acc frame =>
        let step := acc.1.process_frame frame
        (step.1, acc.2 ++ step.2))
      (v0, [])

/-! ### VAD lemmas -/

theorem VoiceActivityDetector.append_to_pre_speech_state
    (v : VoiceActivityDetector) (data : List ℚ) :
    (v.append_to_pre_speech data).state = v.state := by
  by_cases h : v.pre_speech_max_samples < v.pre_speech_buf.length + data.length <;>
    simp [VoiceActivityDetector.append_to_pre_speech, h]

/-- Claim C2: enabled VAD in `speech_offset`.  A frame with RMS below the
silence threshold grows the post-speech accumulator; while the accumulated
silence is still shorter than `min_silence_samples` nothing is emitted and
the detector stays in `speech_offset`; once it reaches
`min_silence_samples`, only the first `post_speech_max_samples` samples of
the post-speech buffer are emitted, the accumulators and the pre-speech
buffer are cleared, `is_speaking` becomes false and the state moves to
`silence`.  A frame with RMS at or above the silence threshold makes the
detector emit the entire accumulated post-speech buffer (however long)
followed by the current frame, clear the post-speech accumulator, and
return to `speaking`. -/
theorem VoiceActivityDetector.speech_offset_spec
    (v : VoiceActivityDetector) (frame : List ℚ)
    (he : v.is_enabled = true) (hs : v.state = .speech_offset) :
    (rms_ge frame v.silence_threshold = false →
      (v.silence_sample_count + frame.length < v.min_silence_samples →
        (v.process_frame frame).2 = []
        ∧ (v.process_frame frame).1.state = .speech_offset
        ∧ (v.process_frame frame).1.post_speech_buf = v.post_speech_buf ++ frame
        ∧ (v.process_frame frame).1.silence_sample_count
            = v.silence_sample_count + frame.length)
      ∧ (v.min_silence_samples ≤ v.silence_sample_count + frame.length →
        (v.process_frame frame).2
            = (v.post_speech_buf ++ frame).take v.post_speech_max_samples
        ∧ (v.process_frame frame).1.state = .silence
        ∧ (v.process_frame frame).1.is_speaking = false
        ∧ (v.process_frame frame).1.post_speech_buf = []
        ∧ (v.process_frame frame).1.silence_sample_count = 0
        ∧ (v.process_frame frame).1.pre_speech_buf = []))
    ∧ (rms_ge frame v.silence_threshold = true →
      (v.process_frame frame).2 = v.post_speech_buf ++ frame
      ∧ (v.process_frame frame).2.length
          = v.post_speech_buf.length + frame.length
      ∧ (v.process_frame frame).1.state = .speaking
      ∧ (v.process_frame frame).1.post_speech_buf = []
      ∧ (v.process_frame frame).1.silence_sample_count = 0
      ∧ (v.process_frame frame).1.is_speaking = v.is_speaking) := by
  refine ⟨fun hlow => ⟨fun hlt => ?_, fun hge => ?_⟩, fun hhigh => ?_⟩
  · have hnot : ¬ v.silence_sample_count + frame.length ≥ v.min_silence_samples := by
      omega
    simp [VoiceActivityDetector.process_frame, hs, hlow, hnot]
  · have hyes : v.silence_sample_count + frame.length ≥ v.min_silence_samples := hge
    simp [VoiceActivityDetector.process_frame, hs, hlow, hyes]
  · simp [VoiceActivityDetector.process_frame, hs, hhigh]

/-- Claim C2 witness: concrete `speech_offset` detectors exercising the three
branches (silence accumulating, silence confirmed, speech resumed). -/
theorem VoiceActivityDetector.speech_offset_spec_witness :
    (VoiceActivityDetector.process_frame
        { state := .speech_offset, post_speech_buf := [2, 3],
          silence_sample_count := 0 } [0]).2 = []
    ∧ (VoiceActivityDetector.process_frame
        { state := .speech_offset, post_speech_buf := [2, 3],
          silence_sample_count := 0 } [0]).1.post_speech_buf = [2, 3, 0]
    ∧ (VoiceActivityDetector.process_frame
        { state := .speech_offset, post_speech_buf := [2, 3],
          silence_sample_count := 9599 } [0]).2 = [2, 3, 0]
    ∧ (VoiceActivityDetector.process_frame
        { state := .speech_offset, post_speech_buf := [2, 3],
          silence_sample_count := 9599 } [0]).1.state = .silence
    ∧ (VoiceActivityDetector.process_frame
        { state := .speech_offset, post_speech_buf := [2, 3],
          silence_sample_count := 9599 } [1]).2 = [2, 3, 1]
    ∧ (VoiceActivityDetector.process_frame
        { state := .speech_offset, post_speech_buf := [2, 3],
          silence_sample_count := 9599 } [1]).1.state = .speaking := by
  have ha := VoiceActivityDetector.speech_offset_spec
    { state := .speech_offset, post_speech_buf := [2, 3],
      silence_sample_count := 0 } [0] rfl rfl
  have hb := VoiceActivityDetector.speech_offset_spec
    { state := .speech_offset, post_speech_buf := [2, 3],
      silence_sample_count := 9599 } [0] rfl rfl
  have hc := VoiceActivityDetector.speech_offset_spec
    { state := .speech_offset, post_speech_buf := [2, 3],
      silence_sample_count := 9599 } [1] rfl rfl
  have ha' := (ha.1 (by norm_num [rms_ge, compute_rms_sq])).1
    (by norm_num [VoiceActivityDetector.min_silence_samples])
  have hb' := (hb.1 (by norm_num [rms_ge, compute_rms_sq])).2
    (by norm_num [VoiceActivityDetector.min_silence_samples])
  have hc' := hc.2 (by norm_num [rms_ge, compute_rms_sq])
  refine ⟨ha'.1, ?_, ?_, hb'.2.1, ?_, hc'.2.2.1⟩
  · simpa using ha'.2.2.1
  · simpa using hb'.1
  · simpa using hc'.1

/-- Claim C3: VAD hysteresis.  For a frame whose RMS lies between the two
thresholds (not below the silence threshold, strictly below the speech
threshold, with `speech_threshold > silence_threshold`), a detector in
`silence` stays in `silence` — the frame only goes into the pre-speech
window and nothing is emitted — and a detector in `speaking` stays in
`speaking` with the frame emitted unchanged, so a constant energy level
between the thresholds never causes state chatter. -/
theorem VoiceActivityDetector.hysteresis_spec
    (v : VoiceActivityDetector) (frame : List ℚ)
    (ht : v.silence_threshold < v.speech_threshold)
    (hlo : rms_ge frame v.silence_threshold = true)
    (hhi : rms_ge frame v.speech_threshold = false) :
    (v.state = .silence →
      (v.process_frame frame).1 = v.append_to_pre_speech frame
      ∧ (v.process_frame frame).1.state = .silence
      ∧ (v.process_frame frame).2 = [])
    ∧ (v.state = .speaking →
      (v.process_frame frame).1 = v
      ∧ (v.process_frame frame).2 = frame) := by
  constructor
  · intro hsil
    have h1 : (v.process_frame frame).1 = v.append_to_pre_speech frame := by
      simp [VoiceActivityDetector.process_frame, hsil, hhi]
    refine ⟨h1, ?_, ?_⟩
    · rw [h1, VoiceActivityDetector.append_to_pre_speech_state, hsil]
    · simp [VoiceActivityDetector.process_frame, hsil, hhi]
  · intro hspk
    constructor <;> simp [VoiceActivityDetector.process_frame, hspk, hlo]

/-- Claim C3 witness: a frame of constant value `1/200` (RMS `0.005`) lies
strictly between the default thresholds `0.003` and `0.007`; a silence
detector stays silent and a speaking detector keeps emitting. -/
theorem VoiceActivityDetector.hysteresis_spec_witness :
    (VoiceActivityDetector.process_frame {} [1/200]).1.state = .silence
    ∧ (VoiceActivityDetector.process_frame {} [1/200]).2 = []
    ∧ (VoiceActivityDetector.process_frame { state := .speaking } [1/200]).1
        = { state := .speaking }
    ∧ (VoiceActivityDetector.process_frame { state := .speaking } [1/200]).2
        = [1/200] := by
  have hs := VoiceActivityDetector.hysteresis_spec {} [1/200]
    (by norm_num) (by norm_num [rms_ge, compute_rms_sq])
    (by norm_num [rms_ge, compute_rms_sq])
  have hk := VoiceActivityDetector.hysteresis_spec { state := .speaking } [1/200]
    (by norm_num) (by norm_num [rms_ge, compute_rms_sq])
    (by norm_num [rms_ge, compute_rms_sq])
  have hs' := hs.1 rfl
  have hk' := hk.2 rfl
  exact ⟨hs'.2.1, hs'.2.2, hk'.1, hk'.2⟩

/-! ### Resampler lemmas -/

theorem resample_eq_map (input : List ℚ) (f t : ℚ) (hne : f ≠ t) (hemp : input ≠ []) :
    resample input f t =
      (List.range ((⌊(input.length : ℚ) / (f / t)⌋).toNat)).map fun (i : ℕ) =>
        input.getD (⌊(i : ℚ) * (f / t)⌋).toNat 0
            * (1 - ((i : ℚ) * (f / t) - ((⌊(i : ℚ) * (f / t)⌋).toNat : ℚ)))
          + input.getD (min ((⌊(i : ℚ) * (f / t)⌋).toNat + 1) (input.length - 1)) 0
            * ((i : ℚ) * (f / t) - ((⌊(i : ℚ) * (f / t)⌋).toNat : ℚ)) := by
  unfold resample
  rw [if_neg (by simp [hne, hemp])]

theorem getD_map_range (g : ℕ → ℚ) (m i : ℕ) (h : i < m) :
    ((List.range m).map g).getD i 0 = g i := by
  rw [List.getD_eq_getElem?_getD, List.getElem?_map, List.getElem?_range h]
  rfl

/-- For `i` below the output count `⌊n / r⌋`, the truncated source index
`⌊i * r⌋` is a valid index into the length-`n` input. -/
theorem floor_idx_lt (n : ℕ) (r : ℚ) (hr : 0 < r) (i : ℕ)
    (hi : i < (⌊(n : ℚ) / r⌋).toNat) : (⌊(i : ℚ) * r⌋).toNat < n := by
  have h1 : (i : ℤ) < ⌊(n : ℚ) / r⌋ := Int.lt_toNat.mp hi
  have h2 : ((i : ℚ) + 1) ≤ (n : ℚ) / r := by
    have h := Int.le_floor.mp (by omega : (i : ℤ) + 1 ≤ ⌊(n : ℚ) / r⌋)
    push_cast at h
    linarith
  have h3 : ((i : ℚ) + 1) * r ≤ (n : ℚ) := by
    rw [← le_div_iff₀ hr]
    exact h2
  have h4 : (i : ℚ) * r < (n : ℚ) := by nlinarith
  have h5 : ⌊(i : ℚ) * r⌋ < (n : ℤ) := by
    rw [Int.floor_lt]
    push_cast
    exact h4
  have hn : 0 < n := by
    have hq : (0 : ℚ) < (n : ℚ) := lt_of_lt_of_le (by positivity) h3
    exact_mod_cast hq
  omega

theorem getD_replicate_of_lt (n : ℕ) (c : ℚ) (j : ℕ) (h : j < n) :
    (List.replicate n c).getD j 0 = c := by
  rw [List.getD_eq_getElem?_getD, List.getElem?_replicate, if_pos h]
  rfl

theorem resample_len (input : List ℚ) (f t : ℚ) (hne : f ≠ t) :
    (resample input f t).length = (⌊(input.length : ℚ) / (f / t)⌋).toNat := by
  by_cases hemp : input = []
  · subst hemp; simp [resample]
  · rw [resample_eq_map input f t hne hemp, List.length_map, List.length_range]

/-- Claim C7: for positive rates with `from ≠ to`, the resampler's output
length is `⌊input_length / (from/to)⌋`; each output sample is the linear
interpolation of the two nearest input samples at fractional source index
`i * (from/to)`, with the upper index clamped to the last input sample; a
constant-valued input therefore resamples to the same constant; and when
`from = to` or the input is empty the output is the input itself. -/
theorem resample_spec (input : List ℚ) (f t c : ℚ) (n : ℕ)
    (hf : 0 < f) (ht : 0 < t) (hne : f ≠ t) :
    (resample input f t).length = (⌊(input.length : ℚ) / (f / t)⌋).toNat
    ∧ (∀ i : ℕ, i < (resample input f t).length →
        (resample input f t).getD i 0 =
          input.getD (⌊(i : ℚ) * (f / t)⌋).toNat 0
              * (1 - ((i : ℚ) * (f / t) - ((⌊(i : ℚ) * (f / t)⌋).toNat : ℚ)))
            + input.getD (min ((⌊(i : ℚ) * (f / t)⌋).toNat + 1) (input.length - 1)) 0
              * ((i : ℚ) * (f / t) - ((⌊(i : ℚ) * (f / t)⌋).toNat : ℚ)))
    ∧ resample (List.replicate n c) f t
        = List.replicate ((⌊(n : ℚ) / (f / t)⌋).toNat) c
    ∧ resample input f f = input
    ∧ resample ([] : List ℚ) f t = [] := by
  have hr : 0 < f / t := div_pos hf ht
  refine ⟨resample_len input f t hne, ?_, ?_, by simp [resample], by simp [resample]⟩
  · intro i hi
    have hemp : input ≠ [] := by
      intro h
      rw [h] at hi
      simp [resample] at hi
    rw [resample_eq_map input f t hne hemp] at hi ⊢
    rw [List.length_map, List.length_range] at hi
    rw [getD_map_range _ _ _ hi]
  · by_cases hn : n = 0
    · subst hn
      simp [resample]
    · have hemp : List.replicate n c ≠ [] := by
        intro h
        have := congrArg List.length h
        simp at this
        exact hn this
      rw [resample_eq_map _ f t hne hemp]
      simp only [List.length_replicate]
      have hmap : ∀ j ∈ List.range ((⌊(n : ℚ) / (f / t)⌋).toNat),
          (List.replicate n c).getD (⌊(j : ℚ) * (f / t)⌋).toNat 0
              * (1 - ((j : ℚ) * (f / t) - ((⌊(j : ℚ) * (f / t)⌋).toNat : ℚ)))
            + (List.replicate n c).getD
                (min ((⌊(j : ℚ) * (f / t)⌋).toNat + 1) (n - 1)) 0
              * ((j : ℚ) * (f / t) - ((⌊(j : ℚ) * (f / t)⌋).toNat : ℚ)) = c := by
        intro j hj
        rw [List.mem_range] at hj
        have h0 : (⌊(j : ℚ) * (f / t)⌋).toNat < n := floor_idx_lt n (f / t) hr j hj
        have h1 : min ((⌊(j : ℚ) * (f / t)⌋).toNat + 1) (n - 1) < n := by omega
        rw [getD_replicate_of_lt n c _ h0, getD_replicate_of_lt n c _ h1]
        ring
      rw [List.map_congr_left hmap, List.map_const', List.length_range]

/-- Claim C7 witness: downsampling 48 kHz → 16 kHz (ratio 3): a 3-sample
buffer yields 1 sample, a constant buffer stays constant, equal rates and
empty input are identities. -/
theorem resample_spec_witness :
    (resample [4, 8, 6] 48000 16000).length = 1
    ∧ resample (List.replicate 5 (9 : ℚ)) 48000 16000 = List.replicate 1 9
    ∧ resample [4, 8, 6] 48000 48000 = [4, 8, 6]
    ∧ resample ([] : List ℚ) 48000 16000 = [] := by
  have h := resample_spec [4, 8, 6] 48000 16000 9 5
    (by norm_num) (by norm_num) (by norm_num)
  refine ⟨?_, ?_, h.2.2.2.1, h.2.2.2.2⟩
  · have h1 := h.1
    norm_num at h1
    exact h1
  · have h2 := h.2.2.1
    norm_num at h2
    exact h2

/-! ## Transcription results (`src/linux/src/transcription_result.h`) -/

structure TranscriptionSegment where
  text : List Char
  start_time : ℤ
  end_time : ℤ
deriving DecidableEq, Repr

structure TranscriptionResult where
  segments : List TranscriptionSegment := []
  audio_duration_ms : ℚ := 0
  transcription_time_ms : ℚ := 0
  model_name : List Char := []
deriving DecidableEq, Repr

/-- `full_text()`: the concatenation of the segment texts, in order. -/
def TranscriptionResult.full_text (r : TranscriptionResult) : List Char :=
  (r.segments.map (fun s => s.text)).flatten

/-- The value-initialised result `{}` the source returns on the empty paths. -/
def TranscriptionResult.empty : TranscriptionResult := {}

/-! ## Recognizer call (`WhisperContext::transcribe`,
`src/linux/src/whisper_context.cpp`)

The inference engine `whisper_full` is external: its outcome (failure, or
success with a list of segments) is a parameter.  `transcribe` always fills
in `audio_duration_ms = samples/16` (ms of 16 kHz audio), the elapsed
compute time and the model name; the segment list is filled only when the
engine call returns 0. -/

inductive WhisperOutcome
  | ok (segments : List TranscriptionSegment)
  | err
deriving DecidableEq, Repr

def WhisperContext.transcribe (outcome : WhisperOutcome) (samples : List ℚ)
    (elapsed : ℚ) (model_name : List Char) : TranscriptionResult :=
  match outcome with
  | .err =>
    { segments := [], audio_duration_ms := (samples.length : ℚ) / 16,
      transcription_time_ms := elapsed, model_name := model_name }
  | .ok segs =>
    { segments := segs, audio_duration_ms := (samples.length : ℚ) / 16,
      transcription_time_ms := elapsed, model_name := model_name }

/-! ## Transcription pipeline (`src/linux/src/transcription_pipeline.cpp`)

The orchestrator calls the recognizer through `ctx_->transcribe`; that call
is modelled as an oracle `recognize : List ℚ → TranscriptionResult`.  The
outcome record also logs, in order, the buffers handed to the recognizer
and the texts handed to the output collaborator, so "no recognizer call"
and "no text output" are statable. -/

namespace TranscriptionPipeline

def MAX_CHUNK_SAMPLES : ℕ := 480000
def MIN_SAMPLES : ℕ := 8000
def CONTINUOUS_MIN_SAMPLES : ℕ := 24000

/-- The characters the source's trim loops strip from both ends
(`front/back == ' ' || '\n'`). -/
def isTrimmedChar (c : Char) : Bool := c = ' ' || c = '\n'

/-- The two `while` loops erasing leading and trailing blanks/newlines. -/
def trimChars (l : List Char) : List Char :=
  ((l.dropWhile isTrimmedChar).reverse.dropWhile isTrimmedChar).reverse

/-- Byte-wise `std::tolower` in the C locale: ASCII letters only. -/
def asciiToLower (c : Char) : Char :=
  if 65 ≤ c.toNat ∧ c.toNat ≤ 90 then Char.ofNat (c.toNat + 32) else c

/-- `HALLUCINATION_PATTERNS` of `transcription_pipeline.cpp`. -/
def HALLUCINATION_PATTERNS : List (List Char) :=
  ["thank you".toList, "thanks for watching".toList, "thanks for listening".toList,
   "please subscribe".toList, "like and subscribe".toList, "see you next time".toList,
   "bye bye".toList, "goodbye".toList, "the end".toList]

/-- `is_hallucination`: lower-case the text, trim it, reject when shorter
than 3 characters or when any stock pattern occurs as a substring
(`lower.find(pattern) != npos`). -/
def is_hallucination (text : List Char) : Bool :=
  let lower := trimChars (text.map asciiToLower)
  if lower.length < 3 then true
  else HALLUCINATION_PATTERNS.any fun p => decide (p <:+: lower)

/-- Chunk `i` of the `transcribe_chunked` loop: the samples from offset
`i * MAX_CHUNK_SAMPLES` up to the next chunk boundary or the end. -/
def chunkAt (samples : List ℚ) (i : ℕ) : List ℚ :=
  (samples.drop (i * MAX_CHUNK_SAMPLES)).take MAX_CHUNK_SAMPLES

/-- The chunk's sample offset converted to milliseconds,
`int64_t(offset / 16.0)` (exact here: offsets are multiples of 16). -/
def chunk_offset_ms (i : ℕ) : ℤ :=
  ((i * MAX_CHUNK_SAMPLES) / 16 : ℕ)

/-- Re-base a chunk's segments by the chunk's offset in milliseconds. -/
def rebase (off : ℤ) (segs : List TranscriptionSegment) :
    List TranscriptionSegment :=
  segs.map fun s => ⟨s.text, s.start_time + off, s.end_time + off⟩

/-- `transcribe_chunked`: cut the samples into consecutive
`MAX_CHUNK_SAMPLES`-sized chunks, transcribe each independently through the
oracle, re-base each chunk's segment timestamps by the chunk's offset, and
concatenate in chunk order.  `total_audio_ms = samples/16.0`; the wall-clock
`elapsed` and current model name are parameters. -/
def transcribe_chunked (recognize : List ℚ → TranscriptionResult)
    (samples : List ℚ) (elapsed : ℚ) (model_name : List Char) :
    TranscriptionResult :=
  { segments :=
      ((List.range (numChunks MAX_CHUNK_SAMPLES samples.length)).map fun i =>
        rebase (chunk_offset_ms i) (recognize (chunkAt samples i)).segments).flatten,
    audio_duration_ms := (samples.length : ℚ) / 16,
    transcription_time_ms := elapsed,
    model_name := model_name }

/-- The interleaved start/end timestamps of a segment list, in order. -/
def segTimes (segs : List TranscriptionSegment) : List ℤ :=
  segs.flatMap fun s => [s.start_time, s.end_time]

/-- What one pipeline entry point did: its returned result, the buffers it
handed to the recognizer and the texts it handed to the output collaborator. -/
structure OrchestratorOutcome where
  result : TranscriptionResult
  recognizer_calls : List (List ℚ)
  emitted_texts : List (List Char)
deriving DecidableEq, Repr

/-- `transcribe_and_output`: nothing happens without a loaded recognizer
(`ctx_` null, modelled by `has_ctx = false`); otherwise transcribe (chunked
beyond `MAX_CHUNK_SAMPLES`), trim the full text, and emit it unless empty. -/
def transcribe_and_output (has_ctx : Bool)
    (recognize : List ℚ → TranscriptionResult) (samples : List ℚ)
    (elapsed : ℚ) (model_name : List Char) : OrchestratorOutcome :=
  if has_ctx = false then ⟨TranscriptionResult.empty, [], []⟩
  else
    let result :=
      if samples.length > MAX_CHUNK_SAMPLES then
        transcribe_chunked recognize samples elapsed model_name
      else recognize samples
    let calls :=
      if samples.length > MAX_CHUNK_SAMPLES then
        (List.range (numChunks MAX_CHUNK_SAMPLES samples.length)).map
          (chunkAt samples)
      else [samples]
    let text := trimChars result.full_text
    ⟨result, calls, if text = [] then [] else [text]⟩

/-- `stop_recording_and_transcribe`, buffered mode: `samples` is what
`audio_.stop_recording()` drained and resampled.  Not recording → `{}`;
below `MIN_SAMPLES` → `{}` with no recognizer call and no output; otherwise
`transcribe_and_output`. -/
def stop_recording_and_transcribe (recording : Bool) (has_ctx : Bool)
    (recognize : List ℚ → TranscriptionResult) (samples : List ℚ)
    (elapsed : ℚ) (model_name : List Char) : OrchestratorOutcome :=
  if recording = false then ⟨TranscriptionResult.empty, [], []⟩
  else if samples.length < MIN_SAMPLES then ⟨TranscriptionResult.empty, [], []⟩
  else transcribe_and_output has_ctx recognize samples elapsed model_name

/-- The pipeline state the context-carry-over properties depend on:
the `recording_` flag and the rolling context string `last_context_text_`. -/
structure PipelineState where
  recording : Bool := false
  last_context_text : List Char := []
deriving DecidableEq, Repr

/-- `start_recording`: a no-op while already recording; otherwise clears the
rolling context and arms recording (audio/monitor side effects are outside
this model). -/
def start_recording (s : PipelineState) : PipelineState :=
  if s.recording then s
  else { recording := true, last_context_text := [] }

/-- The context hint `continuous_loop` passes to the recognizer: nothing
when the rolling context is empty, otherwise its trailing 200 characters
(`substr(size - 200)` when longer than 200, the whole string otherwise). -/
def promptOf (ctx : List Char) : Option (List Char) :=
  if ctx = [] then none
  else some (ctx.drop (if ctx.length > 200 then ctx.length - 200 else 0))

/-- An accepted continuous-mode commit: `last_context_text_ += " " + text`,
then tail-truncation to the last 300 characters when the length exceeds 500. -/
def commitContext (ctx : List Char) (text : List Char) : List Char :=
  let c := ctx ++ ' ' :: text
  if c.length > 500 then c.drop (c.length - 300) else c

end TranscriptionPipeline

/-! ### Chunking lemmas -/

theorem numChunks_pos_eq (n len : ℕ) (hn : 0 < n) (hl : 0 < len) :
    numChunks n len = (len - 1) / n + 1 := by
  unfold numChunks
  have h : len + n - 1 = (len - 1) + n := by omega
  rw [h, Nat.add_div_right _ hn]

theorem numChunks_sub (n len : ℕ) (hn : 0 < n) (hl : 0 < len) :
    numChunks n (len - n) = (len - 1) / n := by
  unfold numChunks
  rcases le_or_lt n len with h | h
  · have e : len - n + n - 1 = len - 1 := by omega
    rw [e]
  · have e1 : len - n = 0 := by omega
    rw [e1]
    have e2 : (0 + n - 1) / n = 0 := Nat.div_eq_of_lt (by omega)
    have e3 : (len - 1) / n = 0 := Nat.div_eq_of_lt (by omega)
    rw [e2, e3]

theorem numChunks_zero (n : ℕ) (hn : 0 < n) : numChunks n 0 = 0 := by
  unfold numChunks
  exact Nat.div_eq_of_lt (by omega)

/-- The consecutive fixed-size pieces of a step-`n` chunking loop cover the
whole input, in order. -/
theorem chunks_cover_aux (n : ℕ) (hn : 0 < n) :
    ∀ (k : ℕ) (l : List ℚ), numChunks n l.length = k →
      ((List.range k).map fun i => (l.drop (i * n)).take n).flatten = l := by
  intro k
  induction k with
  | zero =>
    intro l hl
    have hlen : l.length = 0 := by
      by_contra h0
      rw [numChunks_pos_eq n l.length hn (by omega)] at hl
      exact Nat.succ_ne_zero _ hl
    rw [List.eq_nil_of_length_eq_zero hlen]
    simp
  | succ k ih =>
    intro l hl
    have hlen : 0 < l.length := by
      by_contra h0
      have h1 : l.length = 0 := by omega
      rw [h1, numChunks_zero n hn] at hl
      exact Nat.succ_ne_zero k hl.symm
    have hk : numChunks n (l.drop n).length = k := by
      rw [List.length_drop]
      have e1 := numChunks_pos_eq n l.length hn hlen
      have e2 := numChunks_sub n l.length hn hlen
      set d := (l.length - 1) / n with hd
      omega
    have hrec := ih (l.drop n) hk
    rw [List.range_succ_eq_map]
    simp only [List.map_cons, List.flatten_cons, List.map_map]
    have hcomp : (List.range k).map ((fun i => (l.drop (i * n)).take n) ∘ (· + 1))
        = (List.range k).map fun i => ((l.drop n).drop (i * n)).take n := by
      apply List.map_congr_left
      intro i _
      simp only [Function.comp_apply]
      rw [List.drop_drop]
      have e : (i + 1) * n = n + i * n := by ring
      rw [e]
    rw [hcomp, hrec]
    simpa using List.take_append_drop n l

theorem mem_of_getLast?_eq {l : List ℤ} {x : ℤ} (h : x ∈ l.getLast?) : x ∈ l := by
  rcases List.mem_getLast?_eq_getLast h with ⟨hne, rfl⟩
  exact List.getLast_mem hne

theorem mem_of_head?_eq {l : List ℤ} {x : ℤ} (h : x ∈ l.head?) : x ∈ l := by
  cases l with
  | nil => simp at h
  | cons a t =>
    simp only [List.head?_cons, Option.mem_def, Option.some.injEq] at h
    rw [← h]
    exact List.mem_cons_self a t

/-- Concatenating blocks that are each sorted and each confined to the band
between consecutive values of a monotone bound yields a sorted list. -/
theorem chain'_flatten_blocks (g : ℕ → List ℤ) (lb : ℕ → ℤ) (hmono : Monotone lb) :
    ∀ k : ℕ,
      (∀ i, i < k → List.Chain' (· ≤ ·) (g i)) →
      (∀ i, i < k → ∀ x ∈ g i, lb i ≤ x ∧ x ≤ lb (i + 1)) →
      List.Chain' (· ≤ ·) ((List.range k).map g).flatten
      ∧ ∀ x ∈ ((List.range k).map g).flatten, lb 0 ≤ x ∧ x ≤ lb k := by
  intro k
  induction k with
  | zero => simp
  | succ k ih =>
    intro hc hb
    have ihk := ih (fun i hi => hc i (by omega)) (fun i hi => hb i (by omega))
    rw [List.range_succ]
    simp only [List.map_append, List.map_cons, List.map_nil, List.flatten_append,
      List.flatten_cons, List.flatten_nil, List.append_nil]
    constructor
    · rw [List.chain'_append]
      refine ⟨ihk.1, hc k (by omega), ?_⟩
      intro x hx y hy
      have hx2 : x ≤ lb k := (ihk.2 x (mem_of_getLast?_eq hx)).2
      have hy1 : lb k ≤ y := (hb k (by omega) y (mem_of_head?_eq hy)).1
      exact le_trans hx2 hy1
    · intro x hx
      rcases List.mem_append.mp hx with h | h
      · have h2 := ihk.2 x h
        exact ⟨h2.1, le_trans h2.2 (hmono (Nat.le_succ k))⟩
      · have h2 := hb k (by omega) x h
        exact ⟨le_trans (hmono (Nat.zero_le k)) h2.1, h2.2⟩

namespace TranscriptionPipeline

theorem segTimes_append (l1 l2 : List TranscriptionSegment) :
    segTimes (l1 ++ l2) = segTimes l1 ++ segTimes l2 := by
  simp [segTimes]

theorem segTimes_flatten (L : List (List TranscriptionSegment)) :
    segTimes L.flatten = (L.map segTimes).flatten := by
  induction L with
  | nil => rfl
  | cons a L ih => simp [segTimes_append, ih]

theorem segTimes_rebase (o : ℤ) (segs : List TranscriptionSegment) :
    segTimes (rebase o segs) = (segTimes segs).map (· + o) := by
  induction segs with
  | nil => rfl
  | cons s segs ih =>
    simp only [rebase, List.map_cons, segTimes, List.flatMap_cons] at *
    rw [ih]
    simp

/-- Each chunk starts a multiple of `480000` samples in, i.e. a multiple of
`30000` ms at 16 kHz; the truncating division of the source is exact. -/
theorem chunk_offset_ms_eq (i : ℕ) : chunk_offset_ms i = 30000 * (i : ℤ) := by
  unfold chunk_offset_ms MAX_CHUNK_SAMPLES
  have h : i * 480000 = 16 * (30000 * i) := by ring
  rw [h, Nat.mul_div_cancel_left _ (by norm_num)]
  push_cast
  ring

theorem chunks_cover (samples : List ℚ) :
    ((List.range (numChunks MAX_CHUNK_SAMPLES samples.length)).map
      (chunkAt samples)).flatten = samples := by
  have h := chunks_cover_aux MAX_CHUNK_SAMPLES (by norm_num [MAX_CHUNK_SAMPLES])
    (numChunks MAX_CHUNK_SAMPLES samples.length) samples rfl
  exact h

/-- Claim C4: `transcribe_chunked` splits the input into consecutive
fixed-size chunks that cover it exactly; each chunk is transcribed
independently and its segments' start and end timestamps are raised by the
chunk's sample offset in milliseconds (`30000·i`), concatenated in chunk
order; and — provided each per-chunk recognizer result lists its segment
times in non-decreasing order within the chunk's own duration, as the
recognizer does — the re-based times are monotonically non-decreasing
across chunk boundaries. -/
theorem transcribe_chunked_spec (recognize : List ℚ → TranscriptionResult)
    (samples : List ℚ) (elapsed : ℚ) (model_name : List Char)
    (hchain : ∀ i, i < numChunks MAX_CHUNK_SAMPLES samples.length →
      List.Chain' (· ≤ ·) (segTimes (recognize (chunkAt samples i)).segments))
    (hbound : ∀ i, i < numChunks MAX_CHUNK_SAMPLES samples.length →
      ∀ x ∈ segTimes (recognize (chunkAt samples i)).segments,
        0 ≤ x ∧ x ≤ (((chunkAt samples i).length / 16 : ℕ) : ℤ)) :
    ((List.range (numChunks MAX_CHUNK_SAMPLES samples.length)).map
        (chunkAt samples)).flatten = samples
    ∧ (transcribe_chunked recognize samples elapsed model_name).segments
        = ((List.range (numChunks MAX_CHUNK_SAMPLES samples.length)).map fun i =>
            (recognize (chunkAt samples i)).segments.map fun s =>
              (⟨s.text, s.start_time + 30000 * (i : ℤ),
                s.end_time + 30000 * (i : ℤ)⟩ : TranscriptionSegment)).flatten
    ∧ List.Chain' (· ≤ ·)
        (segTimes (transcribe_chunked recognize samples elapsed model_name).segments) := by
  refine ⟨chunks_cover samples, ?_, ?_⟩
  · show ((List.range (numChunks MAX_CHUNK_SAMPLES samples.length)).map fun i =>
        rebase (chunk_offset_ms i) (recognize (chunkAt samples i)).segments).flatten = _
    refine congrArg List.flatten (List.map_congr_left ?_)
    intro i _
    rw [chunk_offset_ms_eq]
    rfl
  · have hseg : segTimes (transcribe_chunked recognize samples elapsed model_name).segments
        = ((List.range (numChunks MAX_CHUNK_SAMPLES samples.length)).map fun i =>
            (segTimes (recognize (chunkAt samples i)).segments).map
              (· + 30000 * (i : ℤ))).flatten := by
      show segTimes ((List.range (numChunks MAX_CHUNK_SAMPLES samples.length)).map fun i =>
          rebase (chunk_offset_ms i) (recognize (chunkAt samples i)).segments).flatten = _
      rw [segTimes_flatten, List.map_map]
      refine congrArg List.flatten (List.map_congr_left ?_)
      intro i _
      simp only [Function.comp_apply]
      rw [segTimes_rebase, chunk_offset_ms_eq]
    rw [hseg]
    refine (chain'_flatten_blocks _ (fun i => 30000 * (i : ℤ)) ?_
      (numChunks MAX_CHUNK_SAMPLES samples.length) ?_ ?_).1
    · intro a b hab
      have h : (a : ℤ) ≤ (b : ℤ) := by exact_mod_cast hab
      simp only
      linarith
    · intro i hi
      exact (List.chain'_map _).mpr
        ((hchain i hi).imp fun a b hab => add_le_add_right hab (30000 * (i : ℤ)))
    · intro i hi x hx
      rcases List.mem_map.mp hx with ⟨y, hy, rfl⟩
      have hb := hbound i hi y hy
      have hlen : (chunkAt samples i).length ≤ 480000 := by
        unfold chunkAt
        have := List.length_take_le MAX_CHUNK_SAMPLES
          (samples.drop (i * MAX_CHUNK_SAMPLES))
        simpa [MAX_CHUNK_SAMPLES] using this
      have hdiv : (chunkAt samples i).length / 16 ≤ 30000 := by omega
      have hy2 : y ≤ (30000 : ℤ) := le_trans hb.2 (by exact_mod_cast hdiv)
      constructor
      · show (30000 : ℤ) * (i : ℤ) ≤ y + 30000 * (i : ℤ)
        have := hb.1
        linarith
      · show y + 30000 * (i : ℤ) ≤ 30000 * ((i + 1 : ℕ) : ℤ)
        push_cast
        linarith

end TranscriptionPipeline

/-! ### Ring buffer lemmas -/

theorem RingBuffer.foldl_append_samples (as : List (List ℚ)) (b : RingBuffer) :
    (as.foldl RingBuffer.append b).samples = b.samples ++ as.flatten := by
  induction as generalizing b with
  | nil => simp
  | cons a as ih => simp [RingBuffer.append, ih]

/-- Claim C1: appending A1..An to an (initially empty) ring buffer and then
draining returns exactly the concatenation A1‖…‖An in append order, leaves
the buffer empty, and a second drain with no intervening append returns the
empty sequence. -/
theorem RingBuffer.drain_spec (as : List (List ℚ)) :
    ((as.foldl RingBuffer.append ⟨[]⟩).drain).1 = as.flatten
    ∧ ((as.foldl RingBuffer.append ⟨[]⟩).drain).2.samples = []
    ∧ ((as.foldl RingBuffer.append ⟨[]⟩).drain).2.drain.1 = [] := by
  refine ⟨?_, rfl, rfl⟩
  simp [RingBuffer.drain, RingBuffer.foldl_append_samples]

/-! ### Orchestrator theorems -/

namespace TranscriptionPipeline

/-- Claim C4 witness: a single-chunk input and a recognizer emitting one
in-range segment per chunk; the hypotheses evaluate by `decide` and the
re-based times come out sorted. -/
theorem transcribe_chunked_spec_witness :
    ((List.range (numChunks MAX_CHUNK_SAMPLES ([1, 2] : List ℚ).length)).map
        (chunkAt [1, 2])).flatten = [1, 2]
    ∧ List.Chain' (· ≤ ·) (segTimes
        (transcribe_chunked
          (fun c => { segments := [⟨['a'], 0, ((c.length / 16 : ℕ) : ℤ)⟩] })
          [1, 2] 0 []).segments) := by
  have hone : numChunks MAX_CHUNK_SAMPLES ([1, 2] : List ℚ).length = 1 := by decide
  have h := transcribe_chunked_spec
    (fun c => { segments := [⟨['a'], 0, ((c.length / 16 : ℕ) : ℤ)⟩] })
    [1, 2] 0 []
    (by
      intro i hi
      rw [hone] at hi
      have h0 : i = 0 := by omega
      subst h0
      norm_num [segTimes, chunkAt, MAX_CHUNK_SAMPLES, List.length_take,
        List.chain'_cons, List.chain'_singleton, List.flatMap_cons,
        List.flatMap_nil])
    (by
      intro i hi
      rw [hone] at hi
      have h0 : i = 0 := by omega
      subst h0
      decide)
  exact ⟨h.1, h.2.2⟩

/-- Claim C6: `is_hallucination` rejects a text exactly when, after
byte-wise lower-casing and trimming the surrounding blanks the source
strips (spaces and newlines), it is shorter than 3 characters or contains
one of the stock filler phrases as a substring; in particular
`"Thank you."`, `"  bye bye  "` and `""` are rejected while
`"The weather today is sunny"` is accepted. -/
theorem is_hallucination_spec :
    (∀ t : List Char, is_hallucination t = true ↔
      ((trimChars (t.map asciiToLower)).length < 3
        ∨ ∃ p ∈ HALLUCINATION_PATTERNS, p <:+: trimChars (t.map asciiToLower)))
    ∧ is_hallucination "Thank you.".toList = true
    ∧ is_hallucination "  bye bye  ".toList = true
    ∧ is_hallucination [] = true
    ∧ is_hallucination "The weather today is sunny".toList = false := by
  refine ⟨?_, by decide, by decide, by decide, by decide⟩
  intro t
  unfold is_hallucination
  by_cases h : (trimChars (t.map asciiToLower)).length < 3
  · simp [h]
  · simp [h, List.any_eq_true]

/-- Claim C5 counterexample: after session commits of `"hello world"` then
`"foo bar"`, the hint passed to the next recognizer call is
`" hello world foo bar"` — with a leading separator space — which is not a
suffix of `"hello world foo bar"`. -/
theorem context_hint_counterexample :
    promptOf (commitContext (commitContext [] "hello world".toList)
        "foo bar".toList)
      = some " hello world foo bar".toList
    ∧ ¬ " hello world foo bar".toList <:+ "hello world foo bar".toList := by
  refine ⟨by decide, by decide⟩

/-- Claim C5 as amended: the hint after the two commits is the rolling
context `" hello world foo bar"` itself (each commit is appended preceded
by one separator space), so the hint is a trailing suffix, of at most 200
characters, of the space-separated concatenation; in general every hint is
a suffix of the rolling context of at most 200 characters; and after every
accepted commit the rolling context is at most 500 characters long, a
suffix of the appended string, truncated to exactly its last 300 characters
whenever appending takes it beyond 500. -/
theorem context_carry_over_amended :
    promptOf (commitContext (commitContext [] "hello world".toList)
        "foo bar".toList)
      = some (' ' :: "hello world foo bar".toList)
    ∧ (' ' :: "hello world foo bar".toList).length ≤ 200
    ∧ (∀ ctx p : List Char, promptOf ctx = some p →
        p.length ≤ 200 ∧ p <:+ ctx)
    ∧ (∀ ctx t : List Char,
        (commitContext ctx t).length ≤ 500
        ∧ commitContext ctx t <:+ ctx ++ ' ' :: t
        ∧ ((ctx ++ ' ' :: t).length > 500 →
            (commitContext ctx t).length = 300)) := by
  refine ⟨by decide, by decide, ?_, ?_⟩
  · intro ctx p h
    unfold promptOf at h
    by_cases hc : ctx = []
    · simp [hc] at h
    · simp only [hc, if_false, Option.some.injEq] at h
      subst h
      constructor
      · by_cases h200 : ctx.length > 200 <;> simp [h200, List.length_drop] <;> omega
      · exact List.drop_suffix _ _
  · intro ctx t
    unfold commitContext
    by_cases h5 : (ctx ++ ' ' :: t).length > 500
    · simp only [h5, if_true, List.length_drop]
      refine ⟨by omega, List.drop_suffix _ _, fun _ => by omega⟩
    · simp only [h5, if_false]
      refine ⟨by omega, List.suffix_refl _, fun hcon => hcon.elim⟩

/-- Claim C8: in buffered mode, stopping a recording session whose drained,
resampled sample count is below `MIN_SAMPLES` returns the value-initialised
empty result — no error path — and performs no recognizer call and no text
output. -/
theorem stop_short_session_spec (has_ctx : Bool)
    (recognize : List ℚ → TranscriptionResult) (samples : List ℚ)
    (elapsed : ℚ) (model_name : List Char)
    (hshort : samples.length < MIN_SAMPLES) :
    (stop_recording_and_transcribe true has_ctx recognize samples elapsed
        model_name).result = TranscriptionResult.empty
    ∧ (stop_recording_and_transcribe true has_ctx recognize samples elapsed
        model_name).recognizer_calls = []
    ∧ (stop_recording_and_transcribe true has_ctx recognize samples elapsed
        model_name).emitted_texts = [] := by
  unfold stop_recording_and_transcribe
  simp [hshort]

/-- Claim C8 witness: a 1-sample session (below the 8000-sample minimum)
stopped while recording produces the empty result, no recognizer call and
no output. -/
theorem stop_short_session_spec_witness :
    (stop_recording_and_transcribe true true
        (fun _ => TranscriptionResult.empty) [0] 0 []).result
      = TranscriptionResult.empty
    ∧ (stop_recording_and_transcribe true true
        (fun _ => TranscriptionResult.empty) [0] 0 []).recognizer_calls = []
    ∧ (stop_recording_and_transcribe true true
        (fun _ => TranscriptionResult.empty) [0] 0 []).emitted_texts = [] :=
  stop_short_session_spec true (fun _ => TranscriptionResult.empty) [0] 0 []
    (by decide)

/-- Claim C9: with no loaded recognizer, `transcribe_and_output` returns the
empty result without calling the recognizer or emitting text, and raises no
error; and a failed recognizer invocation yields a result with an empty
segment list whose audio-duration (`samples/16` ms) and compute-time
metadata are still populated, so the session continues. -/
theorem failure_handling_spec (recognize : List ℚ → TranscriptionResult)
    (samples : List ℚ) (elapsed : ℚ) (model_name : List Char) :
    (transcribe_and_output false recognize samples elapsed model_name).result
      = TranscriptionResult.empty
    ∧ (transcribe_and_output false recognize samples elapsed
        model_name).recognizer_calls = []
    ∧ (transcribe_and_output false recognize samples elapsed
        model_name).emitted_texts = []
    ∧ (WhisperContext.transcribe .err samples elapsed model_name).segments = []
    ∧ (WhisperContext.transcribe .err samples elapsed model_name).audio_duration_ms
        = (samples.length : ℚ) / 16
    ∧ (WhisperContext.transcribe .err samples elapsed model_name).transcription_time_ms
        = elapsed
    ∧ (WhisperContext.transcribe .err samples elapsed model_name).model_name
        = model_name :=
  ⟨rfl, rfl, rfl, rfl, rfl, rfl, rfl⟩

/-- Claim C10: `start_recording` on an idle pipeline clears the rolling
context, so the first recognizer invocation of the new continuous session
carries no context hint, and the rolling context after any sequence of
commits in the session is what those commits alone produce from the empty
context — independent of anything committed before the session. -/
theorem start_recording_clears_context (s : PipelineState)
    (hs : s.recording = false) :
    (start_recording s).last_context_text = []
    ∧ promptOf (start_recording s).last_context_text = none
    ∧ ∀ ts : List (List Char),
        ts.foldl commitContext (start_recording s).last_context_text
          = ts.foldl commitContext [] := by
  have h : start_recording s = { recording := true, last_context_text := [] } := by
    unfold start_recording
    rw [if_neg]
    rw [hs]
    exact Bool.false_ne_true
  rw [h]
  exact ⟨rfl, rfl, fun ts => rfl⟩

/-- Claim C10 witness: starting a session over a stale context `"old"`
clears it; the first hint is `none` and commits fold from the empty
context. -/
theorem start_recording_clears_context_witness :
    (start_recording ⟨false, "old".toList⟩).last_context_text = []
    ∧ promptOf (start_recording ⟨false, "old".toList⟩).last_context_text = none
    ∧ ∀ ts : List (List Char),
        ts.foldl commitContext
          (start_recording ⟨false, "old".toList⟩).last_context_text
          = ts.foldl commitContext [] :=
  start_recording_clears_context ⟨false, "old".toList⟩ rfl

end TranscriptionPipeline

end Speak
